import Mathlib

/-!
Verification of the pursuit word learner (`src/adam/learner/pursuit.py`,
class `PursuitLanguageLearner`).

Modelling conventions:

* `PerceptionGraphPattern` objects and `PerceptionGraph` objects are
  identified by their object identity, modelled as natural-number ids
  (`Pat`, `PGraph`).  Two structurally equal patterns can be distinct
  objects; structural equality is only available through the engine's
  isomorphism test, exactly as in the source.
* Python floats (hypothesis scores, thresholds) are modelled as rationals.
* Python `dict`s are modelled as insertion-ordered association lists with
  the Python update semantics: updating an existing key keeps its
  position, inserting a new key appends at the end, `pop` removes the key.
* The pattern matching engine (`get_largest_matching_pattern`,
  `check_isomorphism`, `matcher.matches`, `PerceptionGraphPattern.len`,
  `PerceptionGraphPattern.from_graph`), the scene segmentation internals of
  `get_objects_from_perception` and `graph_without_learner` live outside
  `src/` and are treated as a black box `Engine`, following the spec's
  description of the Pattern Matching Engine and Scene Segmenter as
  external collaborators.
* `self._rng.choice(objects)` is modelled by an externally supplied index
  into the candidate-object list (one pre-drawn index per processed word).
-/

/-- Object identity of a `PerceptionGraphPattern`. -/
abbrev Pat := Nat

/-- Object identity of a `PerceptionGraph`. -/
abbrev PGraph := Nat

/-! ### Insertion-ordered dictionaries (Python `dict` semantics) -/

/-- Python `d[k]` (as an `Option`): first entry with the given key. -/
def dictGet {α β : Type} [DecidableEq α] : List (α × β) → α → Option β
  | [], _ => none
  | e :: d, k => if e.1 = k then some e.2 else dictGet d k

/-- Python `k in d`. -/
def dictContains {α β : Type} [DecidableEq α] (d : List (α × β)) (k : α) : Bool :=
  (dictGet d k).isSome

/-- Python `d[k] = v`: update in place if the key exists, else append. -/
def dictSet {α β : Type} [DecidableEq α] : List (α × β) → α → β → List (α × β)
  | [], k, v => [(k, v)]
  | e :: d, k, v => if e.1 = k then (k, v) :: d else e :: dictSet d k v

/-- Python `d.pop(k)` (return value discarded). -/
def dictPop {α β : Type} [DecidableEq α] : List (α × β) → α → List (α × β)
  | [], _ => []
  | e :: d, k => if e.1 = k then dictPop d k else e :: dictPop d k

/-! ### Partial match results (`PursuitLanguageLearner.PartialMatch`) -/

/-- The `PartialMatch` value class of `pursuit.py` (lines 372-388). -/
structure PMatch where
  matching_subgraph : Option Pat
  num_nodes_matched : Nat
  num_nodes_in_pattern : Nat
deriving DecidableEq

/-- Source: `matched_exactly` (line 384). -/
def PMatch.matched_exactly (pm : PMatch) : Bool :=
  pm.num_nodes_matched == pm.num_nodes_in_pattern

/-- Source: `match_ratio` (line 387); Python raises on a zero denominator,
here rational division by zero yields `0`; the theorems that depend on the
ratio assume a non-empty pattern. -/
def PMatch.match_ratio (pm : PMatch) : ℚ :=
  (pm.num_nodes_matched : ℚ) / (pm.num_nodes_in_pattern : ℚ)

/-! ### The external engine -/

/-- Modelled from the spec: the external Pattern Matching Engine and Scene
Segmenter (`largestCommonSubgraph`, `isIsomorphic`, `matchAny`,
`candidateObjects`) plus object-id bookkeeping (`pattern_from_graph` for
`PerceptionGraphPattern.from_graph`, `len` for the node count of a pattern,
`graph_without_learner` for the learner-removal preprocessing).  Their code
is not under `src/`; `pursuit.py` only calls them. -/
structure Engine where
  check_isomorphism : Pat → Pat → Bool
  get_largest_matching_pattern : Pat → PGraph → Option Pat
  len : Pat → Nat
  pattern_from_graph : PGraph → Pat
  get_objects_from_perception : PGraph → List PGraph
  matchAny : Pat → PGraph → Bool
  graph_without_learner : PGraph → PGraph

/-- Source: `_compute_match_ratio` (lines 390-416): the matched node count is
the size of the largest matching subpattern, or `0` when there is none. -/
def compute_match_ratio (eng : Engine) (pattern : Pat) (graph : PGraph) : PMatch :=
  { matching_subgraph := eng.get_largest_matching_pattern pattern graph
    num_nodes_matched :=
      match eng.get_largest_matching_pattern pattern graph with
      | some s => eng.len s
      | none => 0
    num_nodes_in_pattern := eng.len pattern }

/-- Python truthiness of `partial_match.matching_subgraph`: `None` is falsy,
and a `PerceptionGraphPattern` defines `len`, so an empty pattern is falsy. -/
def patTruthy (eng : Engine) : Option Pat → Bool
  | some p => eng.len p != 0
  | none => false

/-! ### Learner state -/

/-- State of `PursuitLanguageLearner`: the hypothesis table
`_words_to_hypotheses_and_scores`, the `_lexicon`, the construction
parameters, the observation counters `_words_to_number_of_observations`
and the `_observation_num` counter. -/
structure PursuitLanguageLearner where
  words_to_hypotheses_and_scores : List (String × List (Pat × ℚ))
  lexicon : List (String × Pat)
  smoothing_parameter : ℚ
  learning_factor : ℚ
  graph_match_confirmation_threshold : ℚ
  lexicon_entry_threshold : ℚ
  words_to_number_of_observations : List (String × Nat)
  observation_num : Nat
deriving DecidableEq

/-- Reinforcement formula `score + gamma * (1 - score)` (lines 263-265 and
362-365 of `pursuit.py`). -/
def reward_formula (γ s : ℚ) : ℚ := s + γ * (1 - s)

/-- Python `max(d, key=lambda k: d[k])` over an insertion-ordered dict:
the first entry of maximal score (Python `max` keeps the earlier element
on ties). -/
def leading_hypothesis : List (Pat × ℚ) → Option (Pat × ℚ)
  | [] => none
  | e :: d =>
    match leading_hypothesis d with
    | none => some e
    | some b => if b.2 > e.2 then some b else some e

/-- Source: `_leading_hypothesis_for` (lines 583-592). -/
def leading_hypothesis_for (L : PursuitLanguageLearner) (word : String) :
    Option (Pat × ℚ) :=
  (dictGet L.words_to_hypotheses_and_scores word).bind leading_hypothesis

/-! ### Initializer (`initialization_step`, lines 188-228) -/

/-- All `(hypothesis, score)` entries of every word of the hypothesis table. -/
def all_hypothesis_entries (whs : List (String × List (Pat × ℚ))) :
    List (Pat × ℚ) :=
  whs.foldr (fun ws acc => ws.2 ++ acc) []

/-- Source: lines 204-212, the `max_association_score` of a candidate
meaning: maximum over `[s for w, h_to_s in table for h, s in h_to_s if
h.check_isomorphism(meaning)] + [0]`. -/
def max_association_score (eng : Engine)
    (whs : List (String × List (Pat × ℚ))) (meaning : Pat) : ℚ :=
  ((all_hypothesis_entries whs).filterMap fun hs =>
    if eng.check_isomorphism hs.1 meaning then some hs.2 else none).foldl max 0

/-- Source: the selection loop of `initialization_step` (lines 197-215):
running best candidate and running minimum (`none` models the initial
`float("inf")`); the best is replaced only on a strictly smaller score. -/
def select_initial (eng : Engine) (whs : List (String × List (Pat × ℚ))) :
    List Pat → Pat → Option ℚ → Pat
  | [], best, _ => best
  | m :: rest, best, curMin =>
    match curMin with
    | none => select_initial eng whs rest m (some (max_association_score eng whs m))
    | some b =>
      if max_association_score eng whs m < b then
        select_initial eng whs rest m (some (max_association_score eng whs m))
      else
        select_initial eng whs rest best (some b)

/-- Source: `initialization_step` (lines 188-228).  When the scene has no
candidate objects, Python's `first(meanings)` raises; the learner state is
modelled as unchanged in that unreachable case. -/
def initialization_step (eng : Engine) (L : PursuitLanguageLearner)
    (word : String) (g : PGraph) : PursuitLanguageLearner :=
  match (eng.get_objects_from_perception g).map eng.pattern_from_graph with
  | [] => L
  | m0 :: rest =>
    let chosen :=
      select_initial eng L.words_to_hypotheses_and_scores (m0 :: rest) m0 none
    { L with words_to_hypotheses_and_scores :=
        dictSet L.words_to_hypotheses_and_scores word [(chosen, L.learning_factor)] }

/-! ### Updater (`learning_step`, lines 230-370) -/

/-- Source: lines 287-332, the `hypotheses_to_reward` list gathered in the
disconfirmation branch: either the sufficiently matching partial subgraph,
or the pattern of a randomly chosen candidate object followed by every
stored hypothesis whose match ratio against that object strictly exceeds
the confirmation threshold (the loop runs over the whole, already
penalized, hypothesis dict). -/
def gather_rewards (eng : Engine) (θ : ℚ) (choiceIdx : Nat)
    (hyps : List (Pat × ℚ)) (pm : PMatch) (g : PGraph) : List Pat :=
  if pm.match_ratio ≥ θ ∧ patTruthy eng pm.matching_subgraph = true then
    pm.matching_subgraph.toList
  else
    let objects := eng.get_objects_from_perception g
    let chosen_object := objects.getD (choiceIdx % objects.length) 0
    eng.pattern_from_graph chosen_object ::
      (hyps.map Prod.fst).filter fun h =>
        (compute_match_ratio eng h chosen_object).match_ratio > θ

/-- Source: `_find_identical_hypothesis` (lines 660-672). -/
def find_identical_hypothesis (eng : Engine) (newHyp : Pat)
    (candidates : List Pat) : Option Pat :=
  candidates.find? fun c => eng.check_isomorphism newHyp c

/-- Source: lines 341-353, resolving a hypothesis marked for reward to the
stored dict key to reward: identity lookup first, then the isomorphism
scan, else the new object itself. -/
def resolve_reward_target (eng : Engine) (hyps : List (Pat × ℚ)) (p : Pat) : Pat :=
  if dictContains hyps p then p
  else
    match find_identical_hypothesis eng p (hyps.map Prod.fst) with
    | some c => c
    | none => p

/-- Source: lines 334-368, the reward loop with the per-step
`hypothesis_objects_boosted_on_this_update` set (modelled as the list of
objects boosted so far, in boosting order). -/
def apply_rewards (eng : Engine) (γ : ℚ) :
    List Pat → List (Pat × ℚ) → List Pat → List (Pat × ℚ) × List Pat
  | [], hyps, boosted => (hyps, boosted)
  | p :: rest, hyps, boosted =>
    let tgt := resolve_reward_target eng hyps p
    if tgt ∈ boosted then apply_rewards eng γ rest hyps boosted
    else
      apply_rewards eng γ rest
        (dictSet hyps tgt (reward_formula γ ((dictGet hyps tgt).getD 0)))
        (boosted ++ [tgt])

/-- Source: `learning_step` (lines 230-370).  Returns the updated learner and
`hypothesis_is_confirmed` (the value of `matched_exactly`, which is what
line 370 returns in both branches).  The two `none` fallbacks model the
unreachable `KeyError` / empty-`max` cases as no-ops. -/
def learning_step (eng : Engine) (choiceIdx : Nat) (L : PursuitLanguageLearner)
    (word : String) (g : PGraph) : PursuitLanguageLearner × Bool :=
  match dictGet L.words_to_hypotheses_and_scores word with
  | none => (L, false)
  | some hyps =>
    match leading_hypothesis hyps with
    | none => (L, false)
    | some lh =>
      let lead := lh.1
      let cur := (dictGet hyps lead).getD 0
      let pm := compute_match_ratio eng lead g
      if pm.matched_exactly && patTruthy eng pm.matching_subgraph then
        let hyps1 := dictSet hyps lead (reward_formula L.learning_factor cur)
        ({ L with words_to_hypotheses_and_scores :=
            dictSet L.words_to_hypotheses_and_scores word hyps1 },
         pm.matched_exactly)
      else
        let hyps1 := dictSet hyps lead (cur * (1 - L.learning_factor))
        let toReward :=
          gather_rewards eng L.graph_match_confirmation_threshold choiceIdx hyps1 pm g
        let hyps2 := (apply_rewards eng L.learning_factor toReward hyps1 []).1
        ({ L with words_to_hypotheses_and_scores :=
            dictSet L.words_to_hypotheses_and_scores word hyps2 },
         pm.matched_exactly)

/-! ### Lexicalizer (`lexicon_step`, lines 418-454) -/

/-- Source: `lexicon_step` (lines 418-454): compute the smoothed posterior of
the leading hypothesis and commit the word to the lexicon when it exceeds
the lexicon entry threshold and the word has been seen more than 5 times.
The `none` fallbacks model the assertion on a missing or empty entry. -/
def lexicon_step (L : PursuitLanguageLearner) (word : String) :
    PursuitLanguageLearner :=
  match dictGet L.words_to_hypotheses_and_scores word with
  | none => L
  | some hyps =>
    match leading_hypothesis hyps with
    | none => L
    | some lh =>
      let prob := (lh.2 + L.smoothing_parameter) /
        ((hyps.map Prod.snd).sum + (hyps.length : ℚ) * L.smoothing_parameter)
      let seen := (dictGet L.words_to_number_of_observations word).getD 0
      if prob > L.lexicon_entry_threshold ∧ seen > 5 then
        { L with
            lexicon := dictSet L.lexicon word lh.1
            words_to_hypotheses_and_scores :=
              dictPop L.words_to_hypotheses_and_scores word }
      else L

/-! ### Observation pipeline (`learn_with_pursuit` and `observe`) -/

/-- Source: the body of the word loop of `learn_with_pursuit`
(lines 160-186): skip determiners, increment the observation counter,
then initialize / learn (+ lexicalize on confirmation) unless the word is
already lexicalized. -/
def process_word (eng : Engine) (choiceIdx : Nat) (L : PursuitLanguageLearner)
    (g : PGraph) (word : String) : PursuitLanguageLearner :=
  if word = "a" ∨ word = "the" then L
  else
    let newCount := (dictGet L.words_to_number_of_observations word).getD 0 + 1
    let newCounts := dictSet L.words_to_number_of_observations word newCount
    let L1 := { L with words_to_number_of_observations := newCounts }
    if dictContains L1.lexicon word then L1
    else if dictContains L1.words_to_hypotheses_and_scores word then
      let step := learning_step eng choiceIdx L1 word g
      if step.2 then lexicon_step step.1 word else step.1
    else initialization_step eng L1 word g

/-- Source: `learn_with_pursuit` (lines 151-186), folding `process_word` over
the token sequence; `choices` supplies one pre-drawn random index per word. -/
def learn_with_pursuit (eng : Engine) :
    List Nat → PursuitLanguageLearner → PGraph → List String →
    PursuitLanguageLearner
  | _, L, _, [] => L
  | choices, L, g, w :: ws =>
    learn_with_pursuit eng choices.tail
      (process_word eng (choices.headD 0) L g w) g ws

/-- Perception frames: the single supported representation
(`DevelopmentalPrimitivePerceptionFrame`, carrying its perception graph) or
any other kind. -/
inductive Frame where
  | developmentalPrimitive (g : PGraph)
  | unsupported
deriving DecidableEq

/-- A `PerceptualRepresentation`: a list of frames. -/
structure PerceptualRepresentation where
  frames : List Frame
deriving DecidableEq

/-- Source: `observe` (lines 126-149).  `self._observation_num += 1` happens
before the frame checks; a raised `RuntimeError` is modelled as `some
message` together with the learner state at the raise point (Python mutates
the learner object in place). -/
def observe (eng : Engine) (choices : List Nat) (L : PursuitLanguageLearner)
    (perception : PerceptualRepresentation) (words : List String) :
    PursuitLanguageLearner × Option String :=
  let L0 := { L with observation_num := L.observation_num + 1 }
  if perception.frames.length ≠ 1 then
    (L0, some "Pursuit learner can only handle single frames for now")
  else
    match perception.frames.headD Frame.unsupported with
    | Frame.developmentalPrimitive g =>
      (learn_with_pursuit eng choices L0 (eng.graph_without_learner g) words, none)
    | Frame.unsupported => (L0, some "Cannot process perception type.")

/-! ### Descriptor (`describe`, lines 527-581) -/

/-- Source: the body of `describe` after the frame checks: matching lexicon
entries at confidence `1.0`, falling back to the leading hypotheses of the
still-hypothesizing words at their current scores. -/
def describe_graph (eng : Engine) (L : PursuitLanguageLearner) (g : PGraph) :
    List (List String × ℚ) :=
  let descriptions := L.lexicon.filterMap fun wp =>
    if eng.matchAny wp.2 g then some (["a", wp.1], (1 : ℚ)) else none
  if descriptions.isEmpty then
    (L.words_to_hypotheses_and_scores.map Prod.fst).filterMap fun word =>
      match leading_hypothesis_for L word with
      | none => none
      | some lh =>
        if eng.matchAny lh.1 g then some (["a", word], lh.2) else none
  else descriptions

/-- Source: `describe` (lines 527-581), frame checks included. -/
def describe (eng : Engine) (L : PursuitLanguageLearner)
    (perception : PerceptualRepresentation) :
    Except String (List (List String × ℚ)) :=
  if perception.frames.length ≠ 1 then
    Except.error "Subset learner can only handle single frames for now"
  else
    match perception.frames.headD Frame.unsupported with
    | Frame.developmentalPrimitive g =>
      Except.ok (describe_graph eng L (eng.graph_without_learner g))
    | Frame.unsupported => Except.error "Cannot process perception type."

/-! ### Invariant predicates -/

/-- A word is a key of at most one of the hypothesis table and the lexicon. -/
def MutualExclusion (L : PursuitLanguageLearner) : Prop :=
  ∀ ws ∈ L.words_to_hypotheses_and_scores, dictContains L.lexicon ws.1 = false

/-- No two (distinct) stored hypothesis keys of one word are isomorphic
according to the engine. -/
def NoIsoDup (eng : Engine) (hyps : List (Pat × ℚ)) : Prop :=
  (hyps.map Prod.fst).Pairwise fun a b => eng.check_isomorphism a b = false

/-! ### Concrete fixtures used by the witnesses and counterexamples -/

/-- Concrete learner with the default construction parameters
(gamma `1/2`, confirmation threshold `9/10`, lexicon threshold `8/10`,
smoothing `1/100`) and empty state. -/
def baseLearner : PursuitLanguageLearner :=
  { words_to_hypotheses_and_scores := []
    lexicon := []
    smoothing_parameter := 1/100
    learning_factor := 1/2
    graph_match_confirmation_threshold := 9/10
    lexicon_entry_threshold := 8/10
    words_to_number_of_observations := []
    observation_num := 0 }

/-- Concrete engine: pattern `1` (2 nodes) matches scene `10` exactly through
subpattern `3` (2 nodes); nothing is isomorphic to anything. -/
def engConfirm : Engine :=
  { check_isomorphism := fun _ _ => false
    get_largest_matching_pattern := fun p g => if p = 1 && g = 10 then some 3 else none
    len := fun p => if p = 1 || p = 3 then 2 else 1
    pattern_from_graph := fun g => g + 7
    get_objects_from_perception := fun _ => [60]
    matchAny := fun _ _ => true
    graph_without_learner := id }

/-- Concrete engine: pattern `1` (2 nodes) does not match scene `50` at all,
but matches the scene's single candidate object `60` exactly (through
subpattern `9`); nothing is isomorphic to anything. -/
def engFallback : Engine :=
  { check_isomorphism := fun _ _ => false
    get_largest_matching_pattern := fun p g => if p = 1 && g = 60 then some 9 else none
    len := fun p => if p = 1 || p = 9 then 2 else 1
    pattern_from_graph := fun g => g + 7
    get_objects_from_perception := fun _ => [60]
    matchAny := fun _ _ => true
    graph_without_learner := id }

/-- Concrete learner hypothesizing about one word `"w"` whose only (hence
leading) hypothesis is pattern `1` with score `1/2`. -/
def learnerW : PursuitLanguageLearner :=
  { baseLearner with
      words_to_hypotheses_and_scores := [("w", [(1, 1/2)])]
      words_to_number_of_observations := [("w", 3)] }

/-- Concrete learner whose word `"w"` is ready to lexicalize: single
hypothesis of score `9/10` and 6 recorded observations. -/
def learnerLex : PursuitLanguageLearner :=
  { baseLearner with
      words_to_hypotheses_and_scores := [("w", [(4, 9/10)])]
      words_to_number_of_observations := [("w", 6)] }

/-- Concrete engine for `describe`: only pattern `2` matches (any scene). -/
def engDescribe : Engine :=
  { check_isomorphism := fun _ _ => false
    get_largest_matching_pattern := fun _ _ => none
    len := fun _ => 1
    pattern_from_graph := fun g => g + 7
    get_objects_from_perception := fun _ => [60]
    matchAny := fun p _ => p == 2
    graph_without_learner := id }

/-- Concrete learner for `describe`: lexicalized words `"dog"` (pattern `2`)
and `"cat"` (pattern `4`), plus one hypothesizing word. -/
def learnerDescribe : PursuitLanguageLearner :=
  { baseLearner with
      lexicon := [("dog", 2), ("cat", 4)]
      words_to_hypotheses_and_scores := [("w", [(6, 1/2)])] }

/-- Concrete engine for the initializer: the scene has candidate objects
`20` and `30` (patterns `27` and `37`); the stored hypothesis `5` of the
other word is isomorphic to candidate pattern `27` only. -/
def engInit : Engine :=
  { check_isomorphism := fun a b => a == 5 && b == 27
    get_largest_matching_pattern := fun _ _ => none
    len := fun _ => 1
    pattern_from_graph := fun g => g + 7
    get_objects_from_perception := fun _ => [20, 30]
    matchAny := fun _ _ => true
    graph_without_learner := id }

/-- Concrete learner for the initializer: another word `"x"` already holds
hypothesis `5` with score `3/4`. -/
def learnerInit : PursuitLanguageLearner :=
  { baseLearner with words_to_hypotheses_and_scores := [("x", [(5, 3/4)])] }

/-- Concrete learner with numeral-valued parameters (used by the `observe`
contract-violation counterexample). -/
def learnerC8 : PursuitLanguageLearner :=
  { words_to_hypotheses_and_scores := [("ball", [(1, 1)])]
    lexicon := []
    smoothing_parameter := 1
    learning_factor := 1
    graph_match_confirmation_threshold := 1
    lexicon_entry_threshold := 1
    words_to_number_of_observations := [("ball", 4)]
    observation_num := 4 }

/-- A two-frame perception (violates the single-frame contract). -/
def twoFramePerception : PerceptualRepresentation :=
  { frames := [Frame.unsupported, Frame.unsupported] }

/-! ## Dictionary lemmas -/

theorem dictGet_set_self {α β : Type} [DecidableEq α] (d : List (α × β)) (k : α) (v : β) :
    dictGet (dictSet d k v) k = some v := by
  induction d with
  | nil => simp [dictGet, dictSet]
  | cons e d ih =>
    by_cases h : e.1 = k
    · simp [dictSet, dictGet, h]
    · simp [dictSet, dictGet, h, ih]

theorem dictGet_set_ne {α β : Type} [DecidableEq α] (d : List (α × β)) (k k' : α) (v : β)
    (h : k' ≠ k) : dictGet (dictSet d k v) k' = dictGet d k' := by
  induction d with
  | nil => simp [dictGet, dictSet, Ne.symm h]
  | cons e d ih =>
    by_cases he : e.1 = k
    · simp [dictSet, dictGet, he, Ne.symm h]
    · simp [dictSet, dictGet, he, ih]

theorem dictContains_iff {α β : Type} [DecidableEq α] (d : List (α × β)) (k : α) :
    dictContains d k = true ↔ k ∈ d.map Prod.fst := by
  induction d with
  | nil => simp [dictContains, dictGet]
  | cons e d ih =>
    by_cases h : e.1 = k
    · subst h; simp [dictContains, dictGet]
    · simp only [dictContains, dictGet, h, if_false, List.map_cons, List.mem_cons]
      rw [dictContains] at ih
      rw [ih]
      simp [Ne.symm h]

theorem dictContains_of_get {α β : Type} [DecidableEq α] {d : List (α × β)} {k : α}
    {v : β} (h : dictGet d k = some v) : dictContains d k = true := by
  simp [dictContains, h]

theorem mem_of_dictSet {α β : Type} [DecidableEq α] {d : List (α × β)} {k : α} {v : β}
    {e : α × β} (h : e ∈ dictSet d k v) : e ∈ d ∨ e.1 = k := by
  induction d with
  | nil =>
    simp [dictSet] at h
    subst h; simp
  | cons f d ih =>
    by_cases hf : f.1 = k
    · simp [dictSet, hf] at h
      rcases h with h | h
      · subst h; simp
      · exact Or.inl (List.mem_cons_of_mem _ h)
    · simp only [dictSet, hf, if_false, List.mem_cons] at h
      rcases h with h | h
      · subst h; exact Or.inl (List.mem_cons_self _ _)
      · rcases ih h with h1 | h1
        · exact Or.inl (List.mem_cons_of_mem _ h1)
        · exact Or.inr h1

theorem mem_of_dictPop {α β : Type} [DecidableEq α] {d : List (α × β)} {k : α}
    {e : α × β} (h : e ∈ dictPop d k) : e ∈ d ∧ e.1 ≠ k := by
  induction d with
  | nil => simp [dictPop] at h
  | cons f d ih =>
    by_cases hf : f.1 = k
    · simp only [dictPop, hf, if_true] at h
      rcases ih h with ⟨h1, h2⟩
      exact ⟨List.mem_cons_of_mem _ h1, h2⟩
    · simp only [dictPop, hf, if_false, List.mem_cons] at h
      rcases h with h | h
      · subst h; exact ⟨List.mem_cons_self _ _, hf⟩
      · rcases ih h with ⟨h1, h2⟩
        exact ⟨List.mem_cons_of_mem _ h1, h2⟩

theorem dictSet_keys_of_contains {α β : Type} [DecidableEq α] (d : List (α × β))
    (k : α) (v : β) (h : dictContains d k = true) :
    (dictSet d k v).map Prod.fst = d.map Prod.fst := by
  induction d with
  | nil => simp [dictContains, dictGet] at h
  | cons f d ih =>
    by_cases hf : f.1 = k
    · simp [dictSet, hf]
    · have h' : dictContains d k = true := by
        simpa [dictContains, dictGet, hf] using h
      simp [dictSet, hf, ih h']

theorem dictSet_keys_of_new {α β : Type} [DecidableEq α] (d : List (α × β))
    (k : α) (v : β) (h : dictContains d k = false) :
    (dictSet d k v).map Prod.fst = d.map Prod.fst ++ [k] := by
  induction d with
  | nil => simp [dictSet]
  | cons f d ih =>
    by_cases hf : f.1 = k
    · simp [dictContains, dictGet, hf] at h
    · have h' : dictContains d k = false := by
        simpa [dictContains, dictGet, hf] using h
      simp [dictSet, hf, ih h']

theorem dictContains_set_iff {α β : Type} [DecidableEq α] (d : List (α × β))
    (k k' : α) (v : β) :
    dictContains (dictSet d k v) k' = true ↔ k' = k ∨ dictContains d k' = true := by
  by_cases h : k' = k
  · subst h; simp [dictContains, dictGet_set_self]
  · simp [dictContains, dictGet_set_ne d k k' v h, h]

/-! ## Leading-hypothesis lemmas -/

theorem leading_hypothesis_mem : ∀ {hyps : List (Pat × ℚ)} {e : Pat × ℚ},
    leading_hypothesis hyps = some e → e ∈ hyps := by
  intro hyps
  induction hyps with
  | nil => intro e h; simp [leading_hypothesis] at h
  | cons f d ih =>
    intro e h
    cases hd : leading_hypothesis d with
    | none =>
      simp only [leading_hypothesis, hd, Option.some.injEq] at h
      subst h
      exact List.mem_cons_self _ _
    | some b =>
      simp only [leading_hypothesis, hd] at h
      by_cases hb : b.2 > f.2
      · rw [if_pos hb] at h
        simp only [Option.some.injEq] at h
        subst h
        exact List.mem_cons_of_mem _ (ih hd)
      · rw [if_neg hb] at h
        simp only [Option.some.injEq] at h
        subst h
        exact List.mem_cons_self _ _

/-! ## Reward-loop lemmas -/

theorem apply_rewards_contains (eng : Engine) (γ : ℚ) (toR : List Pat) :
    ∀ (hyps : List (Pat × ℚ)) (boosted : List Pat) (p : Pat),
      dictContains hyps p = true →
      dictContains (apply_rewards eng γ toR hyps boosted).1 p = true := by
  induction toR with
  | nil =>
    intro hyps b p h
    simpa [apply_rewards] using h
  | cons q rest ih =>
    intro hyps b p h
    simp only [apply_rewards]
    by_cases hq : resolve_reward_target eng hyps q ∈ b
    · rw [if_pos hq]
      exact ih _ _ _ h
    · rw [if_neg hq]
      exact ih _ _ _ ((dictContains_set_iff _ _ _ _).2 (Or.inr h))

theorem apply_rewards_spec (eng : Engine) (γ : ℚ) (toR : List Pat) :
    ∀ (hyps : List (Pat × ℚ)) (boosted : List Pat), boosted.Nodup →
      ∃ extra : List Pat,
        (apply_rewards eng γ toR hyps boosted).2 = boosted ++ extra ∧
        (boosted ++ extra).Nodup ∧
        ∀ q : Pat, dictGet (apply_rewards eng γ toR hyps boosted).1 q =
          if q ∈ extra then some (reward_formula γ ((dictGet hyps q).getD 0))
          else dictGet hyps q := by
  induction toR with
  | nil =>
    intro hyps b hb
    exact ⟨[], by simp [apply_rewards], by simpa using hb,
      fun q => by simp [apply_rewards]⟩
  | cons p rest ih =>
    intro hyps b hb
    simp only [apply_rewards]
    by_cases hp : resolve_reward_target eng hyps p ∈ b
    · rw [if_pos hp]
      exact ih hyps b hb
    · rw [if_neg hp]
      have hb1 : (b ++ [resolve_reward_target eng hyps p]).Nodup := by
        rw [List.nodup_append]
        refine ⟨hb, by simp, ?_⟩
        intro a ha hmem
        have : a = resolve_reward_target eng hyps p := by simpa using hmem
        subst this
        exact hp ha
      obtain ⟨extra, he2, hnd, hget⟩ :=
        ih (dictSet hyps (resolve_reward_target eng hyps p)
              (reward_formula γ ((dictGet hyps (resolve_reward_target eng hyps p)).getD 0)))
          (b ++ [resolve_reward_target eng hyps p]) hb1
      refine ⟨resolve_reward_target eng hyps p :: extra, ?_, ?_, ?_⟩
      · rw [he2]; simp
      · simpa using hnd
      · intro q
        have hq := hget q
        by_cases hqt : q = resolve_reward_target eng hyps p
        · subst hqt
          have hmem : resolve_reward_target eng hyps p ∈
              b ++ [resolve_reward_target eng hyps p] := by simp
          have hqe : resolve_reward_target eng hyps p ∉ extra := by
            rw [List.nodup_append] at hnd
            exact hnd.2.2 hmem
          rw [if_neg hqe] at hq
          rw [dictGet_set_self] at hq
          rw [hq]
          simp
        · rw [dictGet_set_ne _ _ _ _ hqt] at hq
          rw [hq]
          simp [hqt]

theorem noIsoDup_dictSet_resolve (eng : Engine)
    (hsymm : ∀ a b, eng.check_isomorphism a b = eng.check_isomorphism b a)
    (hyps : List (Pat × ℚ)) (p : Pat) (v : ℚ) (h : NoIsoDup eng hyps) :
    NoIsoDup eng (dictSet hyps (resolve_reward_target eng hyps p) v) := by
  by_cases hcp : dictContains hyps p = true
  · have ht : resolve_reward_target eng hyps p = p := by
      simp [resolve_reward_target, hcp]
    rw [ht]
    unfold NoIsoDup
    rw [dictSet_keys_of_contains _ _ _ hcp]
    exact h
  · cases hf : find_identical_hypothesis eng p (hyps.map Prod.fst) with
    | none =>
      have ht : resolve_reward_target eng hyps p = p := by
        simp [resolve_reward_target, hcp, hf]
      rw [ht]
      unfold NoIsoDup
      rw [dictSet_keys_of_new _ _ _ (by simpa using hcp)]
      rw [List.pairwise_append]
      refine ⟨h, by simp, ?_⟩
      intro a ha b hb
      have hb' : b = p := by simpa using hb
      rw [hb', hsymm a p]
      have hfa := List.find?_eq_none.mp hf a ha
      simpa using hfa
    | some c =>
      have hc : c ∈ hyps.map Prod.fst := List.mem_of_find?_eq_some hf
      have ht : resolve_reward_target eng hyps p = c := by
        simp [resolve_reward_target, hcp, hf]
      rw [ht]
      unfold NoIsoDup
      rw [dictSet_keys_of_contains _ _ _ ((dictContains_iff _ _).2 hc)]
      exact h

theorem cond_iff_ratio_one (eng : Engine) (lead : Pat) (g : PGraph)
    (hn : 0 < eng.len lead) :
    (((compute_match_ratio eng lead g).matched_exactly &&
        patTruthy eng (compute_match_ratio eng lead g).matching_subgraph) = true) ↔
      ((compute_match_ratio eng lead g).match_ratio = 1 ∧
        (compute_match_ratio eng lead g).matching_subgraph.isSome = true) := by
  have hlz : (eng.len lead : ℚ) ≠ 0 := by
    exact_mod_cast Nat.pos_iff_ne_zero.mp hn
  cases hsub : eng.get_largest_matching_pattern lead g with
  | none =>
    simp [compute_match_ratio, hsub, PMatch.matched_exactly, PMatch.match_ratio, patTruthy]
  | some sub =>
    simp only [compute_match_ratio, hsub, PMatch.matched_exactly, PMatch.match_ratio,
      patTruthy, Option.isSome_some, and_true, Bool.and_eq_true, beq_iff_eq,
      bne_iff_ne, ne_eq]
    constructor
    · rintro ⟨h1, _⟩
      rw [h1, div_self hlz]
    · intro h1
      have hcast : (eng.len sub : ℚ) = (eng.len lead : ℚ) := by
        field_simp at h1
        exact_mod_cast h1
      have h2 : eng.len sub = eng.len lead := by exact_mod_cast hcast
      refine ⟨h2, ?_⟩
      omega

theorem matched_false_of_cond_false (eng : Engine) (lead : Pat) (g : PGraph)
    (hn : 0 < eng.len lead)
    (hcond : ((compute_match_ratio eng lead g).matched_exactly &&
        patTruthy eng (compute_match_ratio eng lead g).matching_subgraph) = false) :
    (compute_match_ratio eng lead g).matched_exactly = false := by
  cases hsub : eng.get_largest_matching_pattern lead g with
  | none =>
    simp only [compute_match_ratio, hsub, PMatch.matched_exactly, beq_eq_false_iff_ne,
      ne_eq]
    omega
  | some sub =>
    simp only [compute_match_ratio, hsub, PMatch.matched_exactly, patTruthy] at hcond ⊢
    cases hme : (eng.len sub == eng.len lead) with
    | false => rfl
    | true =>
      exfalso
      have h1 : eng.len sub = eng.len lead := by simpa using hme
      have h2 : (eng.len sub != 0) = true := by
        simp only [bne_iff_ne, ne_eq]
        omega
      rw [hme, h2] at hcond
      simp at hcond

theorem apply_rewards_noIsoDup (eng : Engine)
    (hsymm : ∀ a b, eng.check_isomorphism a b = eng.check_isomorphism b a)
    (γ : ℚ) (toR : List Pat) :
    ∀ (hyps : List (Pat × ℚ)) (boosted : List Pat), NoIsoDup eng hyps →
      NoIsoDup eng (apply_rewards eng γ toR hyps boosted).1 := by
  induction toR with
  | nil => intro hyps b h; simpa [apply_rewards] using h
  | cons p rest ih =>
    intro hyps b h
    simp only [apply_rewards]
    by_cases hp : resolve_reward_target eng hyps p ∈ b
    · rw [if_pos hp]
      exact ih _ _ h
    · rw [if_neg hp]
      exact ih _ _ (noIsoDup_dictSet_resolve eng hsymm hyps p _ h)

/-! ## Claim theorems -/

/-- C1: in `learning_step` for a word with an existing hypothesis entry
(non-empty pattern), if the partial match of the leading hypothesis against
the scene has `match_ratio = 1` and a matching subgraph was returned, the
leading score becomes `s + γ·(1 − s)` and the step reports confirmed;
otherwise the leading score is updated to `s·(1 − γ)` (the table then passed
to the reward phase), the leading hypothesis remains a key of the word's
table, and the step reports not confirmed. -/
theorem c1_updater_confirm_and_penalize
    (eng : Engine) (choiceIdx : Nat) (L : PursuitLanguageLearner)
    (word : String) (g : PGraph) (hyps : List (Pat × ℚ)) (lead : Pat) (s : ℚ)
    (hw : dictGet L.words_to_hypotheses_and_scores word = some hyps)
    (hl : leading_hypothesis hyps = some (lead, s))
    (hg : dictGet hyps lead = some s)
    (hn : 0 < eng.len lead) :
    ((compute_match_ratio eng lead g).match_ratio = 1 ∧
        (compute_match_ratio eng lead g).matching_subgraph.isSome = true →
      learning_step eng choiceIdx L word g =
        ({ L with words_to_hypotheses_and_scores := dictSet L.words_to_hypotheses_and_scores word (dictSet hyps lead (s + L.learning_factor * (1 - s))) }, true)) ∧
    (¬ ((compute_match_ratio eng lead g).match_ratio = 1 ∧
          (compute_match_ratio eng lead g).matching_subgraph.isSome = true) →
      (learning_step eng choiceIdx L word g).2 = false ∧
      dictGet (dictSet hyps lead (s * (1 - L.learning_factor))) lead =
        some (s * (1 - L.learning_factor)) ∧
      dictGet
          (learning_step eng choiceIdx L word g).1.words_to_hypotheses_and_scores
          word =
        some (apply_rewards eng L.learning_factor
          (gather_rewards eng L.graph_match_confirmation_threshold choiceIdx
            (dictSet hyps lead (s * (1 - L.learning_factor)))
            (compute_match_ratio eng lead g) g)
          (dictSet hyps lead (s * (1 - L.learning_factor))) []).1 ∧
      dictContains (apply_rewards eng L.learning_factor
          (gather_rewards eng L.graph_match_confirmation_threshold choiceIdx
            (dictSet hyps lead (s * (1 - L.learning_factor)))
            (compute_match_ratio eng lead g) g)
          (dictSet hyps lead (s * (1 - L.learning_factor))) []).1 lead = true) := by
  constructor
  · intro hA
    have hcond := (cond_iff_ratio_one eng lead g hn).2 hA
    have h2 := hcond
    rw [Bool.and_eq_true] at h2
    obtain ⟨hme, hpt⟩ := h2
    simp [learning_step, hw, hl, hg, hme, hpt, reward_formula]
  · intro hB
    have hcond : ((compute_match_ratio eng lead g).matched_exactly &&
        patTruthy eng (compute_match_ratio eng lead g).matching_subgraph) = false := by
      cases hc : ((compute_match_ratio eng lead g).matched_exactly &&
          patTruthy eng (compute_match_ratio eng lead g).matching_subgraph) with
      | true => exact absurd ((cond_iff_ratio_one eng lead g hn).1 hc) hB
      | false => rfl
    have hme := matched_false_of_cond_false eng lead g hn hcond
    refine ⟨?_, dictGet_set_self _ _ _, ?_, ?_⟩
    · simp [learning_step, hw, hl, hg, hcond, hme]
    · simp [learning_step, hw, hl, hg, hcond, dictGet_set_self]
    · exact apply_rewards_contains _ _ _ _ _ _
        (dictContains_of_get (dictGet_set_self _ _ _))

/-- C1 witness: a concrete exact-match confirmation step. -/
theorem c1_witness :
    (dictGet learnerW.words_to_hypotheses_and_scores "w" = some [(1, 1/2)] ∧
      leading_hypothesis [((1 : Pat), (1/2 : ℚ))] = some (1, 1/2) ∧
      dictGet [((1 : Pat), (1/2 : ℚ))] 1 = some (1/2) ∧
      0 < engConfirm.len 1) ∧
    learning_step engConfirm 0 learnerW "w" 10 =
      ({ learnerW with words_to_hypotheses_and_scores := dictSet learnerW.words_to_hypotheses_and_scores "w" (dictSet [((1 : Pat), (1/2 : ℚ))] 1 (1/2 + learnerW.learning_factor * (1 - 1/2))) }, true) := by
  refine ⟨⟨rfl, rfl, rfl, by decide⟩, ?_⟩
  exact (c1_updater_confirm_and_penalize engConfirm 0 learnerW "w" 10
      [(1, 1/2)] 1 (1/2) rfl rfl rfl (by decide)).1
    ⟨by norm_num [compute_match_ratio, engConfirm, PMatch.match_ratio], rfl⟩

/-- C6: for γ in (0,1) and a score in [0,1), the confirmation update
`s ↦ s + γ·(1 − s)` strictly increases the score and keeps it strictly
below 1; iterating it keeps the score non-decreasing and below 1. -/
theorem c6_confirmation_monotonicity (γ s : ℚ)
    (h0 : 0 < γ) (h1 : γ < 1) (h2 : 0 ≤ s) (h3 : s < 1) :
    s < reward_formula γ s ∧ reward_formula γ s < 1 ∧
    ∀ n : ℕ, (reward_formula γ)^[n] s ≤ (reward_formula γ)^[n + 1] s ∧
      (reward_formula γ)^[n] s < 1 := by
  have key : ∀ x : ℚ, 0 ≤ x → x < 1 →
      x < reward_formula γ x ∧ reward_formula γ x < 1 ∧ 0 ≤ reward_formula γ x := by
    intro x hx0 hx1
    unfold reward_formula
    exact ⟨by nlinarith, by nlinarith, by nlinarith⟩
  have iter : ∀ n : ℕ, 0 ≤ (reward_formula γ)^[n] s ∧ (reward_formula γ)^[n] s < 1 := by
    intro n
    induction n with
    | zero => simpa using ⟨h2, h3⟩
    | succ n ih =>
      rw [Function.iterate_succ_apply']
      obtain ⟨_, hlt1, hge⟩ := key _ ih.1 ih.2
      exact ⟨hge, hlt1⟩
  refine ⟨(key s h2 h3).1, (key s h2 h3).2.1, ?_⟩
  intro n
  obtain ⟨hn0, hn1⟩ := iter n
  refine ⟨?_, hn1⟩
  rw [Function.iterate_succ_apply']
  exact le_of_lt (key _ hn0 hn1).1

/-- C6 witness at γ = 1/2, s = 0. -/
theorem c6_witness :
    ((0 : ℚ) < 1/2 ∧ (1/2 : ℚ) < 1 ∧ (0 : ℚ) ≤ 0 ∧ (0 : ℚ) < 1) ∧
    ((0 : ℚ) < reward_formula (1/2) 0 ∧ reward_formula (1/2) 0 < 1 ∧
      ∀ n : ℕ, (reward_formula ((1 : ℚ)/2))^[n] 0 ≤ (reward_formula ((1 : ℚ)/2))^[n + 1] 0 ∧
        (reward_formula ((1 : ℚ)/2))^[n] 0 < 1) :=
  ⟨⟨by norm_num, by norm_num, le_refl 0, by norm_num⟩,
    c6_confirmation_monotonicity (1/2) 0 (by norm_num) (by norm_num)
      (le_refl 0) (by norm_num)⟩

/-- C2: `lexicon_step` computes `P = (s + λ)/(Σ + n·λ)` from the leading
score `s`, the score sum `Σ` and the hypothesis count `n`, and moves the
leading pattern into the lexicon while deleting the word's hypothesis
entry exactly when `P > lexicon_entry_threshold` and the recorded
observation count exceeds 5; otherwise (in particular whenever the count
is at most 5, however large `P` is) no state changes. -/
theorem c2_lexicalizer_gate
    (L : PursuitLanguageLearner) (word : String)
    (hyps : List (Pat × ℚ)) (lead : Pat) (s : ℚ) (cnt : Nat)
    (hw : dictGet L.words_to_hypotheses_and_scores word = some hyps)
    (hl : leading_hypothesis hyps = some (lead, s))
    (hc : dictGet L.words_to_number_of_observations word = some cnt) :
    ((s + L.smoothing_parameter) /
        ((hyps.map Prod.snd).sum + (hyps.length : ℚ) * L.smoothing_parameter) >
          L.lexicon_entry_threshold ∧ cnt > 5 →
      lexicon_step L word =
        { L with lexicon := dictSet L.lexicon word lead, words_to_hypotheses_and_scores := dictPop L.words_to_hypotheses_and_scores word }) ∧
    (¬ ((s + L.smoothing_parameter) /
        ((hyps.map Prod.snd).sum + (hyps.length : ℚ) * L.smoothing_parameter) >
          L.lexicon_entry_threshold ∧ cnt > 5) →
      lexicon_step L word = L) ∧
    (cnt ≤ 5 → lexicon_step L word = L) := by
  have hstep : lexicon_step L word =
      if (s + L.smoothing_parameter) /
          ((hyps.map Prod.snd).sum + (hyps.length : ℚ) * L.smoothing_parameter) >
            L.lexicon_entry_threshold ∧ cnt > 5 then
        { L with lexicon := dictSet L.lexicon word lead, words_to_hypotheses_and_scores := dictPop L.words_to_hypotheses_and_scores word }
      else L := by
    simp only [lexicon_step, hw, hl, hc, Option.getD_some]
  refine ⟨?_, ?_, ?_⟩
  · intro h
    rw [hstep, if_pos h]
  · intro h
    rw [hstep, if_neg h]
  · intro h
    rw [hstep, if_neg]
    rintro ⟨-, h6⟩
    omega

/-- C2 witness: a concrete successful lexicalization. -/
theorem c2_witness :
    (dictGet learnerLex.words_to_hypotheses_and_scores "w" = some [(4, 9/10)] ∧
      leading_hypothesis [((4 : Pat), (9/10 : ℚ))] = some (4, 9/10) ∧
      dictGet learnerLex.words_to_number_of_observations "w" = some 6 ∧
      (((9/10 : ℚ) + learnerLex.smoothing_parameter) /
          (([((4 : Pat), (9/10 : ℚ))].map Prod.snd).sum +
            ([((4 : Pat), (9/10 : ℚ))].length : ℚ) * learnerLex.smoothing_parameter) >
          learnerLex.lexicon_entry_threshold ∧ (6 : Nat) > 5)) ∧
    lexicon_step learnerLex "w" =
      { learnerLex with lexicon := dictSet learnerLex.lexicon "w" 4, words_to_hypotheses_and_scores := dictPop learnerLex.words_to_hypotheses_and_scores "w" } := by
  have hP : ((9/10 : ℚ) + learnerLex.smoothing_parameter) /
      (([((4 : Pat), (9/10 : ℚ))].map Prod.snd).sum +
        ([((4 : Pat), (9/10 : ℚ))].length : ℚ) * learnerLex.smoothing_parameter) >
      learnerLex.lexicon_entry_threshold ∧ (6 : Nat) > 5 := by
    constructor
    · show _ > learnerLex.lexicon_entry_threshold
      simp only [learnerLex, baseLearner, List.map_cons, List.map_nil, List.sum_cons,
        List.sum_nil, List.length_cons, List.length_nil]
      norm_num
    · omega
  exact ⟨⟨rfl, rfl, rfl, hP⟩,
    (c2_lexicalizer_gate learnerLex "w" [(4, 9/10)] 4 (9/10) 6 rfl rfl rfl).1 hP⟩

/-- C7 (code bug): in the random-object fallback of `learning_step`, the
loop over `hypotheses_for_word` does not skip the leading hypothesis, so
the leading hypothesis itself is rewarded (right after being penalized)
when its match ratio against the randomly chosen object exceeds the
confirmation threshold — contradicting the in-code comment "we also reward
all other non-leading hypotheses which would match it" and the log message
"Boosting existing non-leading hypothesis".  Concretely: word `"w"` has
only its leading hypothesis `1` (score `1/2`); the scene match fails
(ratio 0) but pattern `1` matches the chosen candidate object exactly, so
the reward set is `[67, 1]` (fresh object pattern and the leading
hypothesis), and the leading score ends at `reward(penalized) = 5/8`, not
at the penalized `1/4`. -/
theorem c7_leading_rewarded_in_fallback :
    gather_rewards engFallback (9/10) 0 [((1 : Pat), (1/4 : ℚ))]
        (compute_match_ratio engFallback 1 50) 50 = [67, 1] ∧
    learning_step engFallback 0 learnerW "w" 50 =
      ({ learnerW with words_to_hypotheses_and_scores := [("w", [(1, 5/8), (67, 1/2)])] }, false) ∧
    (5/8 : ℚ) = reward_formula (1/2) ((1/2) * (1 - (1/2))) := by
  refine ⟨?_, ?_, ?_⟩
  · norm_num [gather_rewards, engFallback, compute_match_ratio,
      PMatch.match_ratio, patTruthy]
  · norm_num [learning_step, learnerW, baseLearner, engFallback,
      compute_match_ratio, PMatch.match_ratio, PMatch.matched_exactly, patTruthy,
      gather_rewards, apply_rewards, resolve_reward_target,
      find_identical_hypothesis, dictGet, dictSet, dictContains, reward_formula,
      leading_hypothesis]
  · norm_num [reward_formula]

/-- C8 counterexample: on a two-frame perception `observe` raises, yet the
learner state is not left untouched — `self._observation_num += 1` runs
before the frame-count check. -/
theorem c8_counterexample :
    (observe engConfirm [] learnerC8 twoFramePerception ["ball"]).2.isSome = true ∧
    (observe engConfirm [] learnerC8 twoFramePerception ["ball"]).1 ≠ learnerC8 ∧
    (observe engConfirm [] learnerC8 twoFramePerception ["ball"]).1.observation_num =
      learnerC8.observation_num + 1 := by
  refine ⟨rfl, ?_, rfl⟩
  intro h
  have h2 : learnerC8.observation_num + 1 = learnerC8.observation_num :=
    congrArg PursuitLanguageLearner.observation_num h
  omega

/-- C8 amended: `observe` fails fatally when the perception does not have
exactly one frame or the frame is not the supported representation; in
that case the hypothesis table, lexicon and word observation counters are
exactly as before the call, and the only mutation is the
observation-number increment performed before the check. -/
theorem c8_amended_contract_violation (eng : Engine) (choices : List Nat)
    (L : PursuitLanguageLearner) (perception : PerceptualRepresentation)
    (words : List String)
    (h : perception.frames.length ≠ 1 ∨
      perception.frames.headD Frame.unsupported = Frame.unsupported) :
    (observe eng choices L perception words).2.isSome = true ∧
    (observe eng choices L perception words).1 =
      { L with observation_num := L.observation_num + 1 } := by
  rcases h with h | h
  · simp [observe, h]
  · by_cases hlen : perception.frames.length ≠ 1
    · simp [observe, hlen]
    · simp only [observe]
      rw [if_neg hlen, h]
      simp

/-- C8 witness for the amended statement: the two-frame perception. -/
theorem c8_amended_witness :
    (twoFramePerception.frames.length ≠ 1 ∨
      twoFramePerception.frames.headD Frame.unsupported = Frame.unsupported) ∧
    ((observe engConfirm [] learnerC8 twoFramePerception ["ball"]).2.isSome = true ∧
      (observe engConfirm [] learnerC8 twoFramePerception ["ball"]).1 =
        { learnerC8 with observation_num := learnerC8.observation_num + 1 }) :=
  ⟨Or.inl (by decide),
    c8_amended_contract_violation engConfirm [] learnerC8 twoFramePerception
      ["ball"] (Or.inl (by decide))⟩

theorem dictContains_set_ne {α β : Type} [DecidableEq α] (d : List (α × β))
    (k k' : α) (v : β) (h : k' ≠ k) :
    dictContains (dictSet d k v) k' = dictContains d k' := by
  simp [dictContains, dictGet_set_ne d k k' v h]

theorem mutualExclusion_of_set (L : PursuitLanguageLearner) (word : String)
    (hyps : List (Pat × ℚ)) (hlex : dictContains L.lexicon word = false)
    (h : MutualExclusion L) :
    MutualExclusion { L with words_to_hypotheses_and_scores := dictSet L.words_to_hypotheses_and_scores word hyps } := by
  intro ws hmem
  rcases mem_of_dictSet hmem with hm | hm
  · exact h ws hm
  · rw [hm]
    exact hlex

theorem learning_step_shape (eng : Engine) (choiceIdx : Nat)
    (L : PursuitLanguageLearner) (word : String) (g : PGraph) :
    (learning_step eng choiceIdx L word g).1 = L ∨
    ∃ hyps, (learning_step eng choiceIdx L word g).1 =
      { L with words_to_hypotheses_and_scores := dictSet L.words_to_hypotheses_and_scores word hyps } := by
  unfold learning_step
  split
  · exact Or.inl rfl
  · split
    · exact Or.inl rfl
    · dsimp only
      split
      · exact Or.inr ⟨_, rfl⟩
      · exact Or.inr ⟨_, rfl⟩

theorem mutualExclusion_learning_step (eng : Engine) (choiceIdx : Nat)
    (L : PursuitLanguageLearner) (word : String) (g : PGraph)
    (hlex : dictContains L.lexicon word = false) (h : MutualExclusion L) :
    MutualExclusion (learning_step eng choiceIdx L word g).1 := by
  rcases learning_step_shape eng choiceIdx L word g with hs | ⟨hyps, hs⟩
  · rw [hs]; exact h
  · rw [hs]; exact mutualExclusion_of_set L word hyps hlex h

theorem mutualExclusion_lexicon_step (L : PursuitLanguageLearner) (word : String)
    (h : MutualExclusion L) : MutualExclusion (lexicon_step L word) := by
  unfold lexicon_step
  split
  · exact h
  · split
    · exact h
    · dsimp only
      split
      · intro ws hmem
        rcases mem_of_dictPop hmem with ⟨hm, hne⟩
        rw [dictContains_set_ne _ _ _ _ hne]
        exact h ws hm
      · exact h

theorem mutualExclusion_initialization_step (eng : Engine)
    (L : PursuitLanguageLearner) (word : String) (g : PGraph)
    (hlex : dictContains L.lexicon word = false) (h : MutualExclusion L) :
    MutualExclusion (initialization_step eng L word g) := by
  unfold initialization_step
  split
  · exact h
  · exact mutualExclusion_of_set L word _ hlex h

theorem mutualExclusion_process_word (eng : Engine) (choiceIdx : Nat)
    (L : PursuitLanguageLearner) (g : PGraph) (word : String)
    (h : MutualExclusion L) :
    MutualExclusion (process_word eng choiceIdx L g word) := by
  unfold process_word
  split
  · exact h
  · dsimp only
    split
    · exact h
    · rename_i hnl
      have hlex : dictContains L.lexicon word = false := by
        simpa using hnl
      split
      · split
        · exact mutualExclusion_lexicon_step _ _
            (mutualExclusion_learning_step eng choiceIdx _ word g hlex h)
        · exact mutualExclusion_learning_step eng choiceIdx _ word g hlex h
      · exact mutualExclusion_initialization_step eng _ word g hlex h

theorem mutualExclusion_learn_with_pursuit (eng : Engine) :
    ∀ (words : List String) (choices : List Nat) (L : PursuitLanguageLearner)
      (g : PGraph), MutualExclusion L →
      MutualExclusion (learn_with_pursuit eng choices L g words) := by
  intro words
  induction words with
  | nil =>
    intro choices L g h
    simpa [learn_with_pursuit] using h
  | cons w ws ih =>
    intro choices L g h
    simp only [learn_with_pursuit]
    exact ih _ _ _ (mutualExclusion_process_word _ _ _ _ _ h)

/-- C3: a word is a key of at most one of the hypothesis table and the
lexicon, at every point of a run: the invariant is preserved by every
`observe` call (lexicalization removes the hypothesis entry in the same
step, and no step creates a hypothesis entry for a lexicalized word). -/
theorem c3_mutual_exclusion (eng : Engine) (choices : List Nat)
    (L : PursuitLanguageLearner) (perception : PerceptualRepresentation)
    (words : List String) (h : MutualExclusion L) :
    MutualExclusion (observe eng choices L perception words).1 := by
  unfold observe
  dsimp only
  split
  · exact h
  · split
    · exact mutualExclusion_learn_with_pursuit eng words choices _ _ h
    · exact h

/-- C3 witness: one full observation on a concrete learner. -/
theorem c3_witness :
    MutualExclusion learnerW ∧
    MutualExclusion (observe engConfirm [0] learnerW
      { frames := [Frame.developmentalPrimitive 10] } ["w"]).1 :=
  ⟨by unfold MutualExclusion; decide,
    c3_mutual_exclusion engConfirm [0] learnerW
      { frames := [Frame.developmentalPrimitive 10] } ["w"]
      (by unfold MutualExclusion; decide)⟩

/-- C4: in the reward loop of a single `learning_step` invocation
(`apply_rewards`, fed with the penalized table and the gathered reward
list), each resolved hypothesis object is boosted at most once: the list
of boosted objects has no duplicates, and every boosted key receives the
reward formula exactly once while every other key is untouched. -/
theorem c4_no_double_reward (eng : Engine) (γ : ℚ) (toReward : List Pat)
    (hyps : List (Pat × ℚ)) :
    ∃ boosted : List Pat,
      (apply_rewards eng γ toReward hyps []).2 = boosted ∧
      boosted.Nodup ∧
      ∀ q : Pat, dictGet (apply_rewards eng γ toReward hyps []).1 q =
        if q ∈ boosted then some (reward_formula γ ((dictGet hyps q).getD 0))
        else dictGet hyps q := by
  obtain ⟨extra, h1, h2, h3⟩ :=
    apply_rewards_spec eng γ toReward hyps [] List.nodup_nil
  exact ⟨extra, by simpa using h1, by simpa using h2, h3⟩

/-- C5: a hypothesis marked for reward that is isomorphic (per the engine)
to a stored entry is resolved to that stored entry instead of becoming a
new key, and — the engine's isomorphism test being symmetric —
`learning_step` preserves the property that the word's table has no two
isomorphic entries. -/
theorem c5_isomorphism_dedup (eng : Engine) (choiceIdx : Nat)
    (L : PursuitLanguageLearner) (word : String) (g : PGraph)
    (hyps : List (Pat × ℚ))
    (hsymm : ∀ a b, eng.check_isomorphism a b = eng.check_isomorphism b a)
    (hw : dictGet L.words_to_hypotheses_and_scores word = some hyps)
    (hnd : NoIsoDup eng hyps) :
    (∀ (tbl : List (Pat × ℚ)) (p c : Pat), dictContains tbl p = false →
      find_identical_hypothesis eng p (tbl.map Prod.fst) = some c →
      resolve_reward_target eng tbl p = c ∧ dictContains tbl c = true) ∧
    (∀ hyps', dictGet (learning_step eng choiceIdx L word g).1.words_to_hypotheses_and_scores word = some hyps' →
      NoIsoDup eng hyps') := by
  constructor
  · intro tbl p c hcp hf
    refine ⟨by simp [resolve_reward_target, hcp, hf], ?_⟩
    exact (dictContains_iff _ _).2 (List.mem_of_find?_eq_some hf)
  · intro hyps' hres
    cases hl : leading_hypothesis hyps with
    | none =>
      simp only [learning_step, hw, hl] at hres
      injection hres with hres
      rw [← hres]
      exact hnd
    | some lh =>
      have hcont : dictContains hyps lh.1 = true :=
        (dictContains_iff _ _).2
          (List.mem_map_of_mem Prod.fst (leading_hypothesis_mem hl))
      have hset : ∀ v : ℚ, NoIsoDup eng (dictSet hyps lh.1 v) := by
        intro v
        unfold NoIsoDup
        rw [dictSet_keys_of_contains _ _ _ hcont]
        exact hnd
      cases hcond : ((compute_match_ratio eng lh.1 g).matched_exactly &&
          patTruthy eng (compute_match_ratio eng lh.1 g).matching_subgraph) with
      | true =>
        simp [learning_step, hw, hl, hcond, dictGet_set_self] at hres
        rw [← hres]
        exact hset _
      | false =>
        simp [learning_step, hw, hl, hcond, dictGet_set_self] at hres
        rw [← hres]
        exact apply_rewards_noIsoDup eng hsymm _ _ _ _ (hset _)

/-- C5 witness: a concrete disconfirmation step on a duplicate-free table. -/
theorem c5_witness :
    ((∀ a b, engFallback.check_isomorphism a b = engFallback.check_isomorphism b a) ∧
      dictGet learnerW.words_to_hypotheses_and_scores "w" = some [(1, 1/2)] ∧
      NoIsoDup engFallback [((1 : Pat), (1/2 : ℚ))]) ∧
    (∀ hyps', dictGet (learning_step engFallback 0 learnerW "w" 50).1.words_to_hypotheses_and_scores "w" = some hyps' →
      NoIsoDup engFallback hyps') :=
  ⟨⟨fun _ _ => rfl, rfl, by simp [NoIsoDup]⟩,
    (c5_isomorphism_dedup engFallback 0 learnerW "w" 50 [(1, 1/2)]
      (fun _ _ => rfl) rfl (by simp [NoIsoDup])).2⟩

theorem filterMap_if_eq_map_filter {α γ : Type} (p : α → Bool) (f : α → γ) :
    ∀ l : List α,
      (l.filterMap fun a => if p a then some (f a) else none) =
        (l.filter p).map f := by
  intro l
  induction l with
  | nil => simp
  | cons a l ih =>
    by_cases hp : p a
    · simp [List.filterMap_cons, List.filter_cons, hp, ih]
    · simp [List.filterMap_cons, List.filter_cons, hp, ih]

/-- C9: `describe` on a single supported frame never raises; it emits
exactly the lexicalized words whose committed patterns match, each with
confidence `1.0`; only when no lexicalized word matches does it fall back
to the still-hypothesizing words, emitting each word whose leading
hypothesis matches, with confidence equal to that word's leading score;
and it returns the empty mapping when nothing matches at all. -/
theorem c9_descriptor (eng : Engine) (L : PursuitLanguageLearner) (g : PGraph) :
    describe eng L { frames := [Frame.developmentalPrimitive g] } =
      Except.ok (describe_graph eng L (eng.graph_without_learner g)) ∧
    ∀ g' : PGraph,
      ((L.lexicon.filter fun wp => eng.matchAny wp.2 g') ≠ [] →
        describe_graph eng L g' =
          (L.lexicon.filter fun wp => eng.matchAny wp.2 g').map
            fun wp => (["a", wp.1], (1 : ℚ))) ∧
      ((∀ wp ∈ L.lexicon, eng.matchAny wp.2 g' = false) →
        describe_graph eng L g' =
          (L.words_to_hypotheses_and_scores.map Prod.fst).filterMap fun word =>
            match leading_hypothesis_for L word with
            | none => none
            | some lh =>
              if eng.matchAny lh.1 g' then some (["a", word], lh.2) else none) ∧
      ((∀ wp ∈ L.lexicon, eng.matchAny wp.2 g' = false) →
        (∀ word lh, leading_hypothesis_for L word = some lh →
          eng.matchAny lh.1 g' = false) →
        describe_graph eng L g' = []) := by
  constructor
  · simp [describe]
  · intro g'
    have hfm : (L.lexicon.filterMap fun wp =>
        if eng.matchAny wp.2 g' then some (["a", wp.1], (1 : ℚ)) else none) =
        (L.lexicon.filter fun wp => eng.matchAny wp.2 g').map
          fun wp => (["a", wp.1], (1 : ℚ)) :=
      filterMap_if_eq_map_filter _ _ _
    refine ⟨?_, ?_, ?_⟩
    · intro hne
      simp only [describe_graph, hfm]
      rw [if_neg]
      simp [List.isEmpty_iff, hne]
    · intro hall
      have hd0 : (L.lexicon.filterMap fun wp =>
          if eng.matchAny wp.2 g' then some (["a", wp.1], (1 : ℚ)) else none) = [] := by
        rw [List.filterMap_eq_nil_iff]
        intro wp hwp
        simp [hall wp hwp]
      simp only [describe_graph, hd0]
      simp
    · intro hall hlead
      have hd0 : (L.lexicon.filterMap fun wp =>
          if eng.matchAny wp.2 g' then some (["a", wp.1], (1 : ℚ)) else none) = [] := by
        rw [List.filterMap_eq_nil_iff]
        intro wp hwp
        simp [hall wp hwp]
      simp only [describe_graph, hd0]
      simp only [List.isEmpty_nil, if_true]
      rw [List.filterMap_eq_nil_iff]
      intro word hword
      cases hlf : leading_hypothesis_for L word with
      | none => simp
      | some lh => simp [hlead word lh hlf]

/-- C9 witness: a concrete scene where one lexicalized word matches. -/
theorem c9_witness :
    ((learnerDescribe.lexicon.filter fun wp => engDescribe.matchAny wp.2 60) ≠ [] ∧
      describe engDescribe learnerDescribe { frames := [Frame.developmentalPrimitive 60] } =
        Except.ok (describe_graph engDescribe learnerDescribe
          (engDescribe.graph_without_learner 60))) ∧
    describe_graph engDescribe learnerDescribe 60 =
      (learnerDescribe.lexicon.filter fun wp => engDescribe.matchAny wp.2 60).map
        fun wp => (["a", wp.1], (1 : ℚ)) :=
  ⟨⟨by decide, (c9_descriptor engDescribe learnerDescribe 60).1⟩,
    ((c9_descriptor engDescribe learnerDescribe 60).2 60).1 (by decide)⟩

theorem select_initial_spec (eng : Engine) (whs : List (String × List (Pat × ℚ))) :
    ∀ (ms : List Pat) (best : Pat) (b : ℚ),
      (select_initial eng whs ms best (some b) = best ∧
        ∀ m ∈ ms, b ≤ max_association_score eng whs m) ∨
      (∃ pre r post, ms = pre ++ r :: post ∧
        select_initial eng whs ms best (some b) = r ∧
        max_association_score eng whs r < b ∧
        (∀ m ∈ pre, max_association_score eng whs r < max_association_score eng whs m) ∧
        (∀ m ∈ post, max_association_score eng whs r ≤ max_association_score eng whs m)) := by
  intro ms
  induction ms with
  | nil =>
    intro best b
    exact Or.inl ⟨rfl, by simp⟩
  | cons m rest ih =>
    intro best b
    by_cases hm : max_association_score eng whs m < b
    · have hred : select_initial eng whs (m :: rest) best (some b) =
          select_initial eng whs rest m (some (max_association_score eng whs m)) := by
        simp [select_initial, hm]
      rcases ih m (max_association_score eng whs m) with ⟨h1, h2⟩ |
        ⟨pre, r, post, hsplit, hsel, hlt, hpre, hpost⟩
      · right
        refine ⟨[], m, rest, by simp, ?_, hm, by simp, h2⟩
        rw [hred, h1]
      · right
        refine ⟨m :: pre, r, post, by simp [hsplit], ?_, lt_trans hlt hm, ?_, hpost⟩
        · rw [hred, hsel]
        · intro m' hm'
          rcases List.mem_cons.mp hm' with hm' | hm'
          · rw [hm']
            exact hlt
          · exact hpre m' hm'
    · have hred : select_initial eng whs (m :: rest) best (some b) =
          select_initial eng whs rest best (some b) := by
        simp [select_initial, hm]
      rcases ih best b with ⟨h1, h2⟩ |
        ⟨pre, r, post, hsplit, hsel, hlt, hpre, hpost⟩
      · left
        refine ⟨by rw [hred, h1], ?_⟩
        intro m' hm'
        rcases List.mem_cons.mp hm' with hm' | hm'
        · rw [hm']
          exact le_of_not_lt hm
        · exact h2 m' hm'
      · right
        refine ⟨m :: pre, r, post, by simp [hsplit], by rw [hred, hsel],
          hlt, ?_, hpost⟩
        intro m' hm'
        rcases List.mem_cons.mp hm' with hm' | hm'
        · rw [hm']
          exact lt_of_lt_of_le hlt (le_of_not_lt hm)
        · exact hpre m' hm'

/-- C10: on the first sighting of a word (with a non-empty candidate-object
list), `initialization_step` creates the word's table as the single-entry
mapping from a chosen candidate pattern to score exactly γ, where the
chosen pattern attains the minimum cross-word maximum association score
(`max_association_score`) and is the first candidate attaining it (every
earlier candidate scores strictly higher). -/
theorem c10_initializer (eng : Engine) (L : PursuitLanguageLearner)
    (word : String) (g : PGraph) (o : PGraph) (os : List PGraph)
    (hobj : eng.get_objects_from_perception g = o :: os) :
    ∃ chosen pre post,
      initialization_step eng L word g =
        { L with words_to_hypotheses_and_scores := dictSet L.words_to_hypotheses_and_scores word [(chosen, L.learning_factor)] } ∧
      (o :: os).map eng.pattern_from_graph = pre ++ chosen :: post ∧
      (∀ m ∈ pre,
        max_association_score eng L.words_to_hypotheses_and_scores chosen <
          max_association_score eng L.words_to_hypotheses_and_scores m) ∧
      (∀ m ∈ (o :: os).map eng.pattern_from_graph,
        max_association_score eng L.words_to_hypotheses_and_scores chosen ≤
          max_association_score eng L.words_to_hypotheses_and_scores m) := by
  have hstep : initialization_step eng L word g =
      { L with words_to_hypotheses_and_scores := dictSet L.words_to_hypotheses_and_scores word [(select_initial eng L.words_to_hypotheses_and_scores (os.map eng.pattern_from_graph) (eng.pattern_from_graph o) (some (max_association_score eng L.words_to_hypotheses_and_scores (eng.pattern_from_graph o))), L.learning_factor)] } := by
    simp [initialization_step, hobj, select_initial]
  rcases select_initial_spec eng L.words_to_hypotheses_and_scores
      (os.map eng.pattern_from_graph) (eng.pattern_from_graph o)
      (max_association_score eng L.words_to_hypotheses_and_scores
        (eng.pattern_from_graph o)) with ⟨h1, h2⟩ |
    ⟨pre, r, post, hsplit, hsel, hlt, hpre, hpost⟩
  · refine ⟨eng.pattern_from_graph o, [], os.map eng.pattern_from_graph,
      ?_, by simp, by simp, ?_⟩
    · rw [hstep, h1]
    · intro m hm
      rw [List.map_cons] at hm
      rcases List.mem_cons.mp hm with hm' | hm'
      · rw [hm']
      · exact h2 m hm'
  · refine ⟨r, eng.pattern_from_graph o :: pre, post, ?_, ?_, ?_, ?_⟩
    · rw [hstep, hsel]
    · simp [hsplit]
    · intro m hm
      rcases List.mem_cons.mp hm with hm' | hm'
      · rw [hm']
        exact hlt
      · exact hpre m hm'
    · intro m hm
      rw [List.map_cons] at hm
      rcases List.mem_cons.mp hm with hm' | hm'
      · rw [hm']
        exact le_of_lt hlt
      · rw [hsplit] at hm'
        rcases List.mem_append.mp hm' with hm'' | hm''
        · exact le_of_lt (hpre m hm'')
        · rcases List.mem_cons.mp hm'' with hm3 | hm3
          · rw [hm3]
          · exact hpost m hm3

/-- C10 witness: two candidate objects, the second one least associated. -/
theorem c10_witness :
    engInit.get_objects_from_perception 99 = 20 :: [30] ∧
    ∃ chosen pre post,
      initialization_step engInit learnerInit "w" 99 =
        { learnerInit with words_to_hypotheses_and_scores := dictSet learnerInit.words_to_hypotheses_and_scores "w" [(chosen, learnerInit.learning_factor)] } ∧
      ((20 : PGraph) :: [30]).map engInit.pattern_from_graph = pre ++ chosen :: post ∧
      (∀ m ∈ pre,
        max_association_score engInit learnerInit.words_to_hypotheses_and_scores chosen <
          max_association_score engInit learnerInit.words_to_hypotheses_and_scores m) ∧
      (∀ m ∈ ((20 : PGraph) :: [30]).map engInit.pattern_from_graph,
        max_association_score engInit learnerInit.words_to_hypotheses_and_scores chosen ≤
          max_association_score engInit learnerInit.words_to_hypotheses_and_scores m) :=
  ⟨rfl, c10_initializer engInit learnerInit "w" 99 20 [30] rfl⟩
